import Mathlib

/-!
Shallow embedding of the monthly-window fetch-normalize-filter-aggregate
pipeline from `src/pipeline/assets/ingestion/trips.py`, together with
theorems settling the frozen claims about it.

Modelling conventions, documented once here:
* Python `datetime.date` values are triples of naturals compared
  lexicographically (year, month, day), exactly as Python compares dates.
* A pandas `DataFrame` is a list of column labels (duplicates possible,
  as in pandas) plus a list of rows, each row a list of cells.
* Timestamps live on an abstract integer axis; `pd.Timestamp(d)` for a
  date `d` is the order-embedding `tsOf d`.
* The network is passed in as a function from URL to response; the
  response carries the already-decoded tabular payload, since binary
  parquet decoding has no logic of its own in the source.
* `print` diagnostics are collected in a returned list of strings, and
  a Python `raise` is an `Except.error`.
-/

namespace TripsPipeline

/-- Calendar date, mirroring `datetime.date` (compared lexicographically). -/
structure Date where
  year : Nat
  month : Nat
  day : Nat
deriving DecidableEq, Repr

/-- Strict order on dates, exactly the comparison Python performs on
`datetime.date` values (lexicographic on year, month, day). -/
def Date.lt (a b : Date) : Prop :=
  a.year < b.year ∨ (a.year = b.year ∧ (a.month < b.month ∨ (a.month = b.month ∧ a.day < b.day)))

/-- Non-strict order on dates (lexicographic on year, month, day). -/
def Date.le (a b : Date) : Prop :=
  a.year < b.year ∨ (a.year = b.year ∧ (a.month < b.month ∨ (a.month = b.month ∧ a.day ≤ b.day)))

instance (a b : Date) : Decidable (Date.lt a b) := by
  unfold Date.lt; infer_instance

instance (a b : Date) : Decidable (Date.le a b) := by
  unfold Date.le; infer_instance

/-- The `while True` loop body of `_month_starts` (trips.py lines 75-83):
starting from year `y`, month `m`, emit `date(y, m, 1)` while it is
strictly before `endD`, then advance by one month, wrapping `m > 12`
into the next year.  The loop breaks at the first month-start `current`
with `current >= endD`. -/
def monthStartsAux (endD : Date) (y m : Nat) : List Date :=
  if h : Date.lt ⟨y, m, 1⟩ endD then
    Date.mk y m 1 ::
      (if h2 : m + 1 > 12 then monthStartsAux endD (y + 1) 1
       else monthStartsAux endD y (m + 1))
  else []
termination_by endD.year * 12 + endD.month + 1 - (y * 12 + min m 12)
decreasing_by
  · simp only [Date.lt] at h
    omega
  · simp only [Date.lt] at h
    omega

/-- `_month_starts(start, end)` (trips.py lines 69-83): the sequence of
first-of-month dates produced by the generator, starting at the month
containing `startD`. -/
def month_starts (startD endD : Date) : List Date :=
  monthStartsAux endD startD.year startD.month

deriving instance DecidableEq for Except

/-- Cell value of a table.  `null` models NaN/NaT/None, `str` a Python
string, `int` an integer, `ts` a point on the timestamp axis (pandas
`datetime64`, measured in abstract integer units). -/
inductive Value where
  | null : Value
  | str : String → Value
  | int : Int → Value
  | ts : Int → Value
deriving DecidableEq, Repr

/-- A table row: the cells, in column order. -/
abbrev Row := List Value

/-- A pandas `DataFrame`: ordered column labels (duplicates possible, as
in pandas) and rows.  In pandas every row has exactly one cell per
column; `DataFrame.Aligned` states that well-formedness where a theorem
needs it. -/
structure DataFrame where
  cols : List String
  rows : List Row
deriving DecidableEq, Repr

/-- `pd.DataFrame()`: the empty table. -/
def DataFrame.empty : DataFrame := ⟨[], []⟩

/-- `df.empty` in pandas: true when either axis has length zero. -/
def DataFrame.isEmpty (df : DataFrame) : Bool :=
  df.rows.isEmpty || df.cols.isEmpty

/-- Well-formedness: every row has one cell per column. -/
def DataFrame.Aligned (df : DataFrame) : Prop :=
  ∀ r ∈ df.rows, r.length = df.cols.length

/-- Index of the first column with a given label (`df[c]` reads this
column; in every reachable use the label is unique, see the callers). -/
def firstIdx (cols : List String) (c : String) : Option Nat :=
  match cols with
  | [] => none
  | x :: xs => if x = c then some 0 else (firstIdx xs c).map (· + 1)

/-- Cell of row `r` under the first column labelled `c` (null if absent). -/
def getCell (cols : List String) (r : Row) (c : String) : Value :=
  match firstIdx cols c with
  | some i => r.getD i Value.null
  | none => Value.null

/-- `pd.Timestamp(d)` for a date `d`: an order-embedding of dates into
the abstract integer timestamp axis (midnight of the day; the factor
86400 leaves room for intra-day timestamps between two dates). -/
def tsOf (d : Date) : Int :=
  ((d.year : Int) * 32 + d.month) * 32 * 86400 + (d.day : Int) * 86400

/-- Elementwise `series >= pd.Timestamp(t)`: true only for timestamp
cells at or after `t`; NaT (null) compares false, exactly as in pandas.
(Non-datetime cells cannot reach this comparison in the pipeline, since
the column was coerced to datetime first.) -/
def Value.geTs : Value → Int → Bool
  | Value.ts x, t => decide (t ≤ x)
  | _, _ => false

/-- Elementwise `series < pd.Timestamp(t)`; NaT compares false. -/
def Value.ltTs : Value → Int → Bool
  | Value.ts x, t => decide (x < t)
  | _, _ => false

/-- Half-open window membership for one cell, used to state the Window
Filter specification: a timestamp cell with `a <= x < b`. -/
def inWindowB (v : Value) (a b : Int) : Bool :=
  match v with
  | Value.ts x => decide (a ≤ x) && decide (x < b)
  | _ => false

/-- `df.loc[mask]`: keep the rows whose mask entry is true. -/
def locRows : List Row → List Bool → List Row
  | r :: rs, b :: bs => if b then r :: locRows rs bs else locRows rs bs
  | _, _ => []

/-- The Window Filter (trips.py lines 165-170, inline in `materialize`):
if a `pickup_datetime` column is present, keep only rows whose pickup
timestamp satisfies `start <= t < end`; otherwise return the table
unchanged.  The source reads `df["pickup_datetime"]`, which is the first
(in every reachable state: only) column with that label. -/
def window_filter (df : DataFrame) (startD endD : Date) : DataFrame :=
  match firstIdx df.cols "pickup_datetime" with
  | none => df
  | some i =>
    let mask := df.rows.map (fun r =>
      Value.geTs (r.getD i Value.null) (tsOf startD) &&
        Value.ltTs (r.getD i Value.null) (tsOf endD))
    ⟨df.cols, locRows df.rows mask⟩

/-- Python `str.lower()` on a column name, character by character.
This is `String.toLower` (mapping `Char.toLower` over the characters)
re-stated by structural recursion over the character list so that proofs
can evaluate it; column names in this domain are ASCII, where Python and
`Char.toLower` agree. -/
def toLowerStr (s : String) : String := ⟨s.data.map Char.toLower⟩

/-- Step 1 of `_standardize_schema`: lower-case every column label
(the dict comprehension plus `df.rename` on trips.py line 103). -/
def lowerMap (cols : List String) : List String :=
  cols.map toLowerStr

/-- The `rename_map` dict built on trips.py lines 105-117: one entry per
recognized source column name actually present among the (already
lower-cased) labels. -/
def renameMapOf (cols : List String) : List (String × String) :=
  (if cols.contains "tpep_pickup_datetime" then
    [("tpep_pickup_datetime", "pickup_datetime")] else []) ++
  (if cols.contains "lpep_pickup_datetime" then
    [("lpep_pickup_datetime", "pickup_datetime")] else []) ++
  (if cols.contains "tpep_dropoff_datetime" then
    [("tpep_dropoff_datetime", "dropoff_datetime")] else []) ++
  (if cols.contains "lpep_dropoff_datetime" then
    [("lpep_dropoff_datetime", "dropoff_datetime")] else []) ++
  (if cols.contains "pulocationid" then
    [("pulocationid", "pickup_location_id")] else []) ++
  (if cols.contains "dolocationid" then
    [("dolocationid", "dropoff_location_id")] else [])

/-- `df.rename(columns=rename_map)` applied to one label: replace it by
its image when the dict has it as a key, else keep it. -/
def applyRename (rm : List (String × String)) (c : String) : String :=
  match rm.lookup c with
  | some n => n
  | none => c

/-- Closed form of the fate of one label under `rename_map` when the label
occurs in the table (proved equal to `applyRename (renameMapOf cols)` on
members of `cols`): the six recognized names map to canonical ones,
everything else is untouched. -/
def simpleRename (c : String) : String :=
  if c = "tpep_pickup_datetime" then "pickup_datetime"
  else if c = "lpep_pickup_datetime" then "pickup_datetime"
  else if c = "tpep_dropoff_datetime" then "dropoff_datetime"
  else if c = "lpep_dropoff_datetime" then "dropoff_datetime"
  else if c = "pulocationid" then "pickup_location_id"
  else if c = "dolocationid" then "dropoff_location_id"
  else c

/-- One cell under `pd.to_datetime(column, errors="coerce")`: datetime
cells pass through, integers are epoch offsets on the timestamp axis,
and anything unparseable becomes NaT (null).  String parsing is
abstracted: string cells are modelled as unparseable (the theorems only
ever feed genuinely unparseable strings through this). -/
def toDatetimeVal : Value → Value
  | Value.ts x => Value.ts x
  | Value.int n => Value.ts n
  | _ => Value.null

/-- `df[c] = pd.to_datetime(df[c], errors="coerce")` (trips.py lines
122-125) for `c` one of the two datetime columns: absent column is a
no-op; a uniquely-labelled column is coerced cell by cell; duplicate
labels make `df[c]` a two-column frame and `pd.to_datetime` raises,
modelled as an error. -/
def coerceDatetime (df : DataFrame) (c : String) : Except String DataFrame :=
  match firstIdx df.cols c with
  | none => Except.ok df
  | some i =>
    if df.cols.count c = 1 then
      Except.ok ⟨df.cols,
        df.rows.map (fun r => r.set i (toDatetimeVal (r.getD i Value.null)))⟩
    else Except.error ("duplicate column label " ++ c)

/-- Overwrite, in one row, every cell lying under a column labelled `c`. -/
def setNamed (cols : List String) (c : String) (v : Value) : Row → Row
  | [] => []
  | x :: xs =>
    match cols with
    | [] => x :: xs
    | cn :: cs => (if cn = c then v else x) :: setNamed cs c v xs

/-- `df[c] = scalar`: overwrite the column when the label exists, else
append a new column holding the scalar on every row. -/
def setColConst (df : DataFrame) (c : String) (v : Value) : DataFrame :=
  if df.cols.contains c then
    ⟨df.cols, df.rows.map (setNamed df.cols c v)⟩
  else
    ⟨df.cols ++ [c], df.rows.map (fun r => r ++ [v])⟩

/-- `_standardize_schema` (trips.py lines 95-130): empty fast path,
lower-case all labels, rename recognized source columns to the canonical
names, coerce the two datetime columns, and stamp the subtype into a
`taxi_type` column. -/
def standardize_schema (df : DataFrame) (taxi_type : String) : Except String DataFrame :=
  if df.isEmpty then Except.ok df
  else
    let df1 : DataFrame := ⟨lowerMap df.cols, df.rows⟩
    let rm := renameMapOf df1.cols
    let df2 : DataFrame := ⟨df1.cols.map (applyRename rm), df1.rows⟩
    match coerceDatetime df2 "pickup_datetime" with
    | Except.error e => Except.error e
    | Except.ok df3 =>
      match coerceDatetime df3 "dropoff_datetime" with
      | Except.error e => Except.error e
      | Except.ok df4 => Except.ok (setColConst df4 "taxi_type" (Value.str taxi_type))

/-- An HTTP response: status code and, for successful fetches, the
tabular payload already decoded from the parquet body (the binary
decoding itself has no logic in the source).  Transport failures
(timeouts, connection errors) raise out of `requests.get` before any of
the modelled code runs and are outside this embedding. -/
structure HttpResponse where
  status : Nat
  content : DataFrame
deriving DecidableEq, Repr

/-- `_load_parquet_from_url` (trips.py lines 86-92): non-200 status logs
a skip diagnostic and returns an empty table instead of raising; a 200
response yields the decoded payload.  The network call is abstracted as
the `resp` argument. -/
def load_parquet_from_url (url : String) (resp : HttpResponse) :
    List String × DataFrame :=
  if resp.status ≠ 200 then
    (["Skipping URL " ++ url ++ " (status=" ++ toString resp.status ++ ")"],
      DataFrame.empty)
  else ([], resp.content)

/-- The fixed download host (trips.py line 62). -/
def BASE_URL : String := "https://d37ci6vzurychx.cloudfront.net/trip-data"

/-- Python f-string 02d formatting: zero-pad to two digits. -/
def two_digit (n : Nat) : String :=
  if n < 10 then "0" ++ toString n else toString n

/-- The URL built for one (subtype, month-start) pair (trips.py
line 157). -/
def urlFor (taxi_type : String) (m : Date) : String :=
  BASE_URL ++ "/" ++ taxi_type ++ "_tripdata_" ++ toString m.year ++ "-" ++
    two_digit m.month ++ ".parquet"

/-- One iteration of the inner loop of `materialize` (trips.py lines
156-177): log the fetch, load, skip when empty, normalize (which can
only fail on pathological duplicate labels), filter to the window, skip
when empty, else stamp `extracted_at` with the wall-clock reading `t`
and hand the frame back for accumulation. -/
def processMonth (http : String → HttpResponse) (startD endD : Date) (t : Int)
    (taxi_type : String) (monthStart : Date) :
    List String × Except String (Option DataFrame) :=
  let url := urlFor taxi_type monthStart
  let res := load_parquet_from_url url (http url)
  let logs := ("Fetching " ++ url) :: res.1
  if res.2.isEmpty then (logs, Except.ok none)
  else
    match standardize_schema res.2 taxi_type with
    | Except.error e => (logs, Except.error e)
    | Except.ok df1 =>
      let df2 := window_filter df1 startD endD
      if df2.isEmpty then (logs, Except.ok none)
      else (logs, Except.ok (some (setColConst df2 "extracted_at" (Value.ts t))))

/-- The (subtype × month) loop of `materialize`, threading the printed
diagnostics and the accumulated frames.  `pd.Timestamp.utcnow()` is
modelled by the injected clock: the k-th reading stamps the k-th
appended frame, so the reading passed to a unit is indexed by the number
of frames accumulated so far (a unit that appends nothing consumes no
reading). -/
def runUnits (http : String → HttpResponse) (startD endD : Date)
    (clock : Nat → Int) :
    List (String × Date) → List String → List DataFrame →
      List String × Except String (List DataFrame)
  | [], logs, frames => (logs, Except.ok frames)
  | (ty, m) :: rest, logs, frames =>
    match processMonth http startD endD (clock frames.length) ty m with
    | (l2, Except.error e) => (logs ++ l2, Except.error e)
    | (l2, Except.ok none) => runUnits http startD endD clock rest (logs ++ l2) frames
    | (l2, Except.ok (some df)) =>
      runUnits http startD endD clock rest (logs ++ l2) (frames ++ [df])

/-- Encounter order of the fetch units: subtype-major, months
chronological within each subtype (the nested loops on lines 155-156). -/
def unitsOf (taxiTypes : List String) (startD endD : Date) : List (String × Date) :=
  (taxiTypes.map (fun ty => (month_starts startD endD).map (fun m => (ty, m)))).flatten

/-- Union of the frame columns in encounter order, as `pd.concat`
aligns them (first frame order first, new labels appended as met). -/
def concatCols (frames : List DataFrame) : List String :=
  frames.foldl (fun acc d => acc ++ d.cols.filter (fun c => !(acc.contains c))) []

/-- Reindex one row of a frame with columns `cols` onto the concatenated
column set: absent columns are filled with null. -/
def reindexRow (cols : List String) (allCols : List String) (r : Row) : Row :=
  allCols.map (fun c =>
    match firstIdx cols c with
    | some i => r.getD i Value.null
    | none => Value.null)

/-- `pd.concat(frames, ignore_index=True)` (trips.py line 197). -/
def concatDF (frames : List DataFrame) : DataFrame :=
  let allCols := concatCols frames
  ⟨allCols, (frames.map (fun d => d.rows.map (reindexRow d.cols allCols))).flatten⟩

/-- The canonical column set returned when nothing was accumulated
(trips.py lines 181-195), in the defined order. -/
def canonicalColumns : List String :=
  ["taxi_type", "pickup_datetime", "dropoff_datetime", "pickup_location_id",
   "dropoff_location_id", "passenger_count", "trip_distance", "fare_amount",
   "total_amount", "payment_type", "extracted_at"]

/-- Configuration read from the environment by `materialize` (trips.py
lines 141-151).  The ISO date strings and the JSON decoding of
`BRUIN_VARS` carry no pipeline logic and are abstracted to their parsed
results; a Python empty string is falsy exactly like an unset variable,
so both are `none`. -/
structure Env where
  startDate? : Option Date
  endDate? : Option Date
  taxiTypes? : Option (List String)

/-- The message of the `RuntimeError` raised on missing window
configuration (trips.py line 144). -/
def CONFIG_ERROR : String :=
  "BRUIN_START_DATE and BRUIN_END_DATE must be set for this asset."

/-- Configuration check plus the accumulation loop of `materialize`:
missing start or end date raises before anything is fetched or printed;
otherwise run all (subtype × month) units (default subtype list
`["yellow"]`). -/
def collect (env : Env) (http : String → HttpResponse) (clock : Nat → Int) :
    List String × Except String (List DataFrame) :=
  match env.startDate?, env.endDate? with
  | some s, some e =>
    runUnits http s e clock (unitsOf (env.taxiTypes?.getD ["yellow"]) s e) [] []
  | _, _ => ([], Except.error CONFIG_ERROR)

/-- `materialize` (trips.py lines 133-197): run the loop; when no frame
was accumulated return an empty table with the canonical columns, else
concatenate the accumulated frames in encounter order. -/
def materialize (env : Env) (http : String → HttpResponse) (clock : Nat → Int) :
    List String × Except String DataFrame :=
  match collect env http clock with
  | (logs, Except.error e) => (logs, Except.error e)
  | (logs, Except.ok frames) =>
    if frames.isEmpty then (logs, Except.ok ⟨canonicalColumns, []⟩)
    else (logs, Except.ok (concatDF frames))

/-- A frame is stamped with reading `t`: well-formed, it has an
`extracted_at` column, and every cell lying under a column with that
label holds the timestamp `t`. -/
def Stamped (t : Int) (df : DataFrame) : Prop :=
  df.Aligned ∧ df.cols.contains "extracted_at" = true ∧
    ∀ r ∈ df.rows, ∀ i, i < df.cols.length →
      df.cols.getD i "" = "extracted_at" → r.getD i Value.null = Value.ts t

/-- A cell of a datetime-typed (coerced) column: a timestamp or NaT.
The Window Filter specification is stated under this typing hypothesis
because comparing a non-datetime column against a `pd.Timestamp` raises
in pandas, and the pipeline only ever filters coerced columns. -/
def IsDatetimeCell : Value → Prop
  | Value.null => True
  | Value.ts _ => True
  | _ => False

-- ### Concrete fixtures used by witnesses and counterexamples

/-- A run window of January and February 2023 over the yellow subtype. -/
def envA : Env := ⟨some ⟨2023, 1, 1⟩, some ⟨2023, 3, 1⟩, some ["yellow"]⟩

/-- A network where every fetch succeeds with a one-row yellow table
whose pickup falls inside the window. -/
def httpA : String → HttpResponse :=
  fun _ => ⟨200, ⟨["tpep_pickup_datetime"], [[Value.ts (tsOf ⟨2023, 1, 15⟩)]]⟩⟩

/-- A network where every fetch is a 404. -/
def http404 : String → HttpResponse :=
  fun _ => ⟨404, DataFrame.empty⟩

/-- A wall clock advancing by one unit per reading. -/
def clockTick : Nat → Int := fun n => (n : Int)

/-- A wall clock frozen at zero. -/
def clockZero : Nat → Int := fun _ => (0 : Int)

/-- A normalized-shaped table with one in-window pickup, one null pickup
and one out-of-window pickup. -/
def dfW3 : DataFrame :=
  ⟨["pickup_datetime"],
   [[Value.ts (tsOf ⟨2023, 2, 10⟩)], [Value.null], [Value.ts (tsOf ⟨2024, 1, 1⟩)]]⟩

/-- A raw yellow-style table using both recognized raw names. -/
def dfW4 : DataFrame :=
  ⟨["tpep_pickup_datetime", "PULocationID"], [[Value.ts 5, Value.int 33]]⟩

/-- The normalized form of `dfW4`. -/
def outW4 : DataFrame :=
  ⟨["pickup_datetime", "pickup_location_id", "taxi_type"],
   [[Value.ts 5, Value.int 33, Value.str "yellow"]]⟩

/-- The table `materialize` returns for `envA`, `httpA` and a clock
frozen at 5. -/
def dfW7 : DataFrame :=
  ⟨["pickup_datetime", "taxi_type", "extracted_at"],
   [[Value.ts (tsOf ⟨2023, 1, 15⟩), Value.str "yellow", Value.ts 5],
    [Value.ts (tsOf ⟨2023, 1, 15⟩), Value.str "yellow", Value.ts 5]]⟩

/-- A raw table with one unrecognized column and one renamed column. -/
def dfW9 : DataFrame :=
  ⟨["foo", "tpep_pickup_datetime"], [[Value.int 7, Value.ts 3]]⟩

/-- The normalized form of `dfW9`. -/
def outW9 : DataFrame :=
  ⟨["foo", "pickup_datetime", "taxi_type"],
   [[Value.int 7, Value.ts 3, Value.str "yellow"]]⟩

/-- Column names (post-lower-casing) whose label or content the Schema
Normalizer may touch: the six recognized source names it renames, the
two canonical datetime names it type-coerces, and `taxi_type` which it
overwrites.  Every other column is untouched. -/
def untouchedName (c : String) : Prop :=
  c ∉ ["tpep_pickup_datetime", "lpep_pickup_datetime", "tpep_dropoff_datetime",
       "lpep_dropoff_datetime", "pulocationid", "dolocationid",
       "pickup_datetime", "dropoff_datetime", "taxi_type"]

-- ### Lemmas about the Window Enumerator

lemma monthStartsAux_mem (ey em ed dy dm dd : Nat) :
    ∀ y m, 1 ≤ m → m ≤ 12 →
      (Date.mk dy dm dd ∈ monthStartsAux ⟨ey, em, ed⟩ y m ↔
        (dd = 1 ∧ 1 ≤ dm ∧ dm ≤ 12 ∧ Date.le ⟨y, m, 1⟩ ⟨dy, dm, dd⟩ ∧
          Date.lt ⟨dy, dm, dd⟩ ⟨ey, em, ed⟩)) := by
  intro y m
  induction y, m using monthStartsAux.induct ⟨ey, em, ed⟩ with
  | case1 y m h ih1 ih2 =>
    intro h1 h2
    rw [monthStartsAux.eq_def, dif_pos h]
    by_cases hm : m + 1 > 12
    · have hrec := ih1 hm (by omega) (by omega)
      simp only [dif_pos hm, List.mem_cons, hrec]
      simp only [Date.lt, Date.le, Date.mk.injEq] at h h1 h2 hrec ⊢
      omega
    · have hrec := ih2 hm (by omega) (by omega)
      simp only [dif_neg hm, List.mem_cons, hrec]
      simp only [Date.lt, Date.le, Date.mk.injEq] at h h1 h2 hrec ⊢
      omega
  | case2 y m h =>
    intro h1 h2
    rw [monthStartsAux.eq_def, dif_neg h]
    simp only [List.not_mem_nil, false_iff]
    intro hc
    simp only [Date.lt, Date.le] at h hc
    omega

lemma monthStartsAux_head? (e : Date) (y m : Nat) (b : Date)
    (hb : (monthStartsAux e y m).head? = some b) : b = ⟨y, m, 1⟩ := by
  rw [monthStartsAux.eq_def] at hb
  split at hb
  · simp only [List.head?_cons, Option.some.injEq] at hb
    exact hb.symm
  · simp at hb

lemma monthStartsAux_chain (e : Date) :
    ∀ y m, 1 ≤ m → m ≤ 12 → List.Chain' Date.lt (monthStartsAux e y m) := by
  intro y m
  induction y, m using monthStartsAux.induct e with
  | case1 y m h ih1 ih2 =>
    intro h1 h2
    rw [monthStartsAux.eq_def, dif_pos h]
    by_cases hm : m + 1 > 12
    · rw [dif_pos hm]
      refine List.chain'_cons'.mpr ⟨?_, ih1 hm (by omega) (by omega)⟩
      intro b hb
      rw [monthStartsAux_head? e (y + 1) 1 b hb]
      simp only [Date.lt]
      omega
    · rw [dif_neg hm]
      refine List.chain'_cons'.mpr ⟨?_, ih2 hm (by omega) (by omega)⟩
      intro b hb
      rw [monthStartsAux_head? e y (m + 1) b hb]
      simp only [Date.lt, true_and]
      omega
  | case2 y m h =>
    intro h1 h2
    rw [monthStartsAux.eq_def, dif_neg h]
    exact List.chain'_nil

lemma monthStartsAux_length (e : Date) :
    ∀ n y m, e.year * 12 + e.month + 1 - (y * 12 + min m 12) ≤ n →
      (monthStartsAux e y m).length ≤ n := by
  intro n
  induction n with
  | zero =>
    intro y m hn
    rw [monthStartsAux.eq_def]
    split
    · next h =>
      exfalso
      simp only [Date.lt] at h
      omega
    · simp
  | succ n ih =>
    intro y m hn
    rw [monthStartsAux.eq_def]
    split
    · next h =>
      simp only [List.length_cons]
      split
      · next h2 =>
        have := ih (y + 1) 1 (by simp only [Date.lt] at h; omega)
        omega
      · next h2 =>
        have := ih y (m + 1) (by simp only [Date.lt] at h; omega)
        omega
    · simp

lemma month_starts_2023_eval :
    month_starts ⟨2023, 1, 1⟩ ⟨2023, 3, 1⟩ = [⟨2023, 1, 1⟩, ⟨2023, 2, 1⟩] := by
  rw [month_starts, monthStartsAux.eq_def]
  norm_num [Date.lt]
  rw [monthStartsAux.eq_def]
  norm_num [Date.lt]
  rw [monthStartsAux.eq_def]
  norm_num [Date.lt]

/-- C1: for `start < end`, the Window Enumerator yields exactly the
month-start dates `m` (first of a month) with
first-of-start-month `≤ m < end`, strictly increasing (hence no
duplicates, no gaps); in particular for 2023-01-01 to 2023-03-01 it
yields the two month-starts 2023-01-01 and 2023-02-01. -/
theorem month_starts_correct (s e : Date)
    (h1 : 1 ≤ s.month) (h2 : s.month ≤ 12) (hlt : Date.lt s e) :
    (∀ d : Date, d ∈ month_starts s e ↔
      (d.day = 1 ∧ 1 ≤ d.month ∧ d.month ≤ 12 ∧
        Date.le ⟨s.year, s.month, 1⟩ d ∧ Date.lt d e))
    ∧ List.Chain' Date.lt (month_starts s e)
    ∧ month_starts ⟨2023, 1, 1⟩ ⟨2023, 3, 1⟩ = [⟨2023, 1, 1⟩, ⟨2023, 2, 1⟩] := by
  refine ⟨?_, monthStartsAux_chain e s.year s.month h1 h2, month_starts_2023_eval⟩
  intro d
  obtain ⟨dy, dm, dd⟩ := d
  obtain ⟨ey, em, ed⟩ := e
  exact monthStartsAux_mem ey em ed dy dm dd s.year s.month h1 h2

theorem month_starts_correct_witness :
    Date.lt ⟨2023, 1, 1⟩ ⟨2023, 3, 1⟩ ∧
      month_starts ⟨2023, 1, 1⟩ ⟨2023, 3, 1⟩ = [⟨2023, 1, 1⟩, ⟨2023, 2, 1⟩] :=
  ⟨by decide,
    (month_starts_correct ⟨2023, 1, 1⟩ ⟨2023, 3, 1⟩ (by decide) (by decide) (by decide)).2.2⟩

/-- C2: the claim says `_month_starts(d, d) = []` for every date `d`, and
the docstring of `_month_starts` promises only months overlapping the
(here empty) window `[d, d)`.  The code disagrees whenever `d` is not the
first of its month: for start = end = 2023-05-15 it yields the single
month-start 2023-05-01, because the loop compares the month-start (not
`start` itself) against `end`.  When `d` is a month-start the code does
return the empty sequence. -/
theorem month_starts_start_eq_end_bug :
    month_starts ⟨2023, 5, 15⟩ ⟨2023, 5, 15⟩ = [⟨2023, 5, 1⟩] ∧
      month_starts ⟨2023, 5, 1⟩ ⟨2023, 5, 1⟩ = [] := by
  constructor
  · rw [month_starts, monthStartsAux.eq_def]
    norm_num [Date.lt]
    rw [monthStartsAux.eq_def]
    norm_num [Date.lt]
  · rw [month_starts, monthStartsAux.eq_def]
    norm_num [Date.lt]

/-- C10: the Window Enumerator always terminates with a finite sequence,
of length at most one more than the month index of `end`; and whenever
the first day of the month of `start` is on or after `end` (which covers
every pair with `start` after `end` and `start.day = 1`, and more), it
yields the empty sequence. -/
theorem month_starts_finite (s e : Date) :
    (Date.le e ⟨s.year, s.month, 1⟩ → month_starts s e = [])
    ∧ (month_starts s e).length ≤ e.year * 12 + e.month + 1 := by
  constructor
  · intro h
    have hng : ¬ Date.lt ⟨s.year, s.month, 1⟩ e := by
      simp only [Date.lt, Date.le] at *
      omega
    rw [month_starts, monthStartsAux.eq_def, dif_neg hng]
  · exact monthStartsAux_length e (e.year * 12 + e.month + 1) s.year s.month (by omega)

theorem month_starts_finite_witness :
    month_starts ⟨2023, 5, 1⟩ ⟨2023, 1, 1⟩ = [] ∧
      (month_starts ⟨2023, 5, 1⟩ ⟨2023, 1, 1⟩).length ≤ 2023 * 12 + 1 + 1 :=
  ⟨(month_starts_finite ⟨2023, 5, 1⟩ ⟨2023, 1, 1⟩).1 (by decide),
    (month_starts_finite ⟨2023, 5, 1⟩ ⟨2023, 1, 1⟩).2⟩

-- ### Configuration error (C8)

/-- C8: when the start or the end date is missing from the
configuration, `materialize` raises the configuration error immediately:
the result is the error with an empty diagnostics list (so no fetch line
was printed), and it does not depend on the network or the clock at all
(both are universally quantified), so no fetch was attempted. -/
theorem materialize_missing_config (env : Env) (http : String → HttpResponse)
    (clock : Nat → Int) (h : env.startDate? = none ∨ env.endDate? = none) :
    materialize env http clock = ([], Except.error CONFIG_ERROR) := by
  obtain ⟨os, oe, ot⟩ := env
  simp only [materialize, collect]
  rcases h with h | h
  · simp only at h
    subst h
    rfl
  · simp only at h
    subst h
    cases os
    · rfl
    · rfl

theorem materialize_missing_config_witness :
    materialize ⟨none, none, none⟩ http404 clockZero =
      ([], Except.error CONFIG_ERROR) :=
  materialize_missing_config ⟨none, none, none⟩ http404 clockZero (Or.inl rfl)

-- ### Soft skip of non-OK fetches (C5)

lemma load_parquet_skip (url : String) (resp : HttpResponse)
    (h : resp.status ≠ 200) :
    load_parquet_from_url url resp =
      (["Skipping URL " ++ url ++ " (status=" ++ toString resp.status ++ ")"],
        DataFrame.empty) := by
  simp [load_parquet_from_url, h]

lemma processMonth_skip (http : String → HttpResponse) (startD endD : Date)
    (t : Int) (ty : String) (m : Date)
    (h : (http (urlFor ty m)).status ≠ 200) :
    processMonth http startD endD t ty m =
      (["Fetching " ++ urlFor ty m,
        "Skipping URL " ++ urlFor ty m ++ " (status=" ++
          toString (http (urlFor ty m)).status ++ ")"], Except.ok none) := by
  simp [processMonth, load_parquet_skip _ _ h, DataFrame.isEmpty, DataFrame.empty]

lemma runUnits_skip (http : String → HttpResponse) (startD endD : Date)
    (clock : Nat → Int) (rest : List (String × Date)) (logs : List String)
    (frames : List DataFrame) (ty : String) (m : Date)
    (h : (http (urlFor ty m)).status ≠ 200) :
    runUnits http startD endD clock ((ty, m) :: rest) logs frames =
      runUnits http startD endD clock rest
        (logs ++ ["Fetching " ++ urlFor ty m,
          "Skipping URL " ++ urlFor ty m ++ " (status=" ++
            toString (http (urlFor ty m)).status ++ ")"]) frames := by
  rw [runUnits, processMonth_skip http startD endD (clock frames.length) ty m h]

/-- C5: a non-200 response makes the Resource Fetcher emit the skip
diagnostic and return the empty table without raising; inside one
loop iteration this means the month yields no frame and no error
(`Except.ok none`), and the whole-run loop just moves on to the
remaining units with the frame accumulator unchanged — the month
contributes zero rows and the run is not aborted. -/
theorem fetch_soft_skip :
    (∀ url resp, resp.status ≠ 200 →
      load_parquet_from_url url resp =
        (["Skipping URL " ++ url ++ " (status=" ++ toString resp.status ++ ")"],
          DataFrame.empty))
    ∧ (∀ http startD endD t ty m, (http (urlFor ty m)).status ≠ 200 →
      processMonth http startD endD t ty m =
        (["Fetching " ++ urlFor ty m,
          "Skipping URL " ++ urlFor ty m ++ " (status=" ++
            toString (http (urlFor ty m)).status ++ ")"], Except.ok none))
    ∧ (∀ http startD endD clock rest logs frames ty m,
      (http (urlFor ty m)).status ≠ 200 →
      runUnits http startD endD clock ((ty, m) :: rest) logs frames =
        runUnits http startD endD clock rest
          (logs ++ ["Fetching " ++ urlFor ty m,
            "Skipping URL " ++ urlFor ty m ++ " (status=" ++
              toString (http (urlFor ty m)).status ++ ")"]) frames) :=
  ⟨fun url resp h => load_parquet_skip url resp h,
   fun http startD endD t ty m h => processMonth_skip http startD endD t ty m h,
   fun http startD endD clock rest logs frames ty m h =>
     runUnits_skip http startD endD clock rest logs frames ty m h⟩

theorem fetch_soft_skip_witness :
    load_parquet_from_url "u" ⟨404, DataFrame.empty⟩ =
      (["Skipping URL u (status=404)"], DataFrame.empty)
    ∧ processMonth http404 ⟨2023, 1, 1⟩ ⟨2023, 3, 1⟩ 0 "yellow" ⟨2023, 1, 1⟩ =
      (["Fetching " ++ urlFor "yellow" ⟨2023, 1, 1⟩,
        "Skipping URL " ++ urlFor "yellow" ⟨2023, 1, 1⟩ ++ " (status=404)"],
        Except.ok none) :=
  ⟨fetch_soft_skip.1 "u" ⟨404, DataFrame.empty⟩ (by decide),
   fetch_soft_skip.2.1 http404 ⟨2023, 1, 1⟩ ⟨2023, 3, 1⟩ 0 "yellow" ⟨2023, 1, 1⟩
     (by decide)⟩

-- ### Window Filter (C3)

lemma locRows_map (p : Row → Bool) :
    ∀ rows : List Row, locRows rows (rows.map p) = rows.filter p := by
  intro rows
  induction rows with
  | nil => rfl
  | cons r rs ih =>
    simp only [List.map_cons, locRows, List.filter_cons]
    by_cases hp : p r
    · simp [hp, ih]
    · simp [hp, ih]

lemma geTs_and_ltTs (v : Value) (a b : Int) :
    (Value.geTs v a && Value.ltTs v b) = inWindowB v a b := by
  cases v <;> simp [Value.geTs, Value.ltTs, inWindowB]

/-- C3: when the table has no `pickup_datetime` column the Window Filter
returns it unchanged; when it has one (datetime-typed, as the Normalizer
guarantees), the columns are untouched and the surviving rows are
exactly those whose pickup timestamp lies in the half-open window
`start <= t < end`; in particular every row with a null pickup is
dropped. -/
theorem window_filter_spec (df : DataFrame) (startD endD : Date)
    (hdt : ∀ i, firstIdx df.cols "pickup_datetime" = some i →
      ∀ r ∈ df.rows, IsDatetimeCell (r.getD i Value.null)) :
    (firstIdx df.cols "pickup_datetime" = none →
      window_filter df startD endD = df)
    ∧ (∀ i, firstIdx df.cols "pickup_datetime" = some i →
        (window_filter df startD endD).cols = df.cols
        ∧ (window_filter df startD endD).rows =
            df.rows.filter (fun r =>
              inWindowB (r.getD i Value.null) (tsOf startD) (tsOf endD))
        ∧ (∀ r ∈ df.rows, r.getD i Value.null = Value.null →
            r ∉ (window_filter df startD endD).rows)) := by
  constructor
  · intro h
    simp [window_filter, h]
  · intro i hi
    have hfun : (fun r : Row =>
        Value.geTs (r.getD i Value.null) (tsOf startD) &&
          Value.ltTs (r.getD i Value.null) (tsOf endD)) =
        (fun r : Row =>
          inWindowB (r.getD i Value.null) (tsOf startD) (tsOf endD)) :=
      funext fun r => geTs_and_ltTs _ _ _
    have hw : window_filter df startD endD =
        ⟨df.cols, df.rows.filter (fun r =>
          inWindowB (r.getD i Value.null) (tsOf startD) (tsOf endD))⟩ := by
      simp only [window_filter, hi]
      rw [locRows_map, hfun]
    refine ⟨by rw [hw], by rw [hw], ?_⟩
    intro r hr hnull hmem
    rw [hw] at hmem
    simp only [List.mem_filter] at hmem
    rw [hnull] at hmem
    simp [inWindowB] at hmem

theorem window_filter_spec_witness :
    (window_filter dfW3 ⟨2023, 1, 1⟩ ⟨2023, 3, 1⟩).rows =
      dfW3.rows.filter (fun r =>
        inWindowB (r.getD 0 Value.null) (tsOf ⟨2023, 1, 1⟩) (tsOf ⟨2023, 3, 1⟩)) :=
  ((window_filter_spec dfW3 ⟨2023, 1, 1⟩ ⟨2023, 3, 1⟩ (by
      intro i hi r hr
      have h0 : i = 0 := by
        have hfi : firstIdx dfW3.cols "pickup_datetime" = some 0 := rfl
        rw [hfi] at hi
        exact (Option.some.inj hi).symm
      subst h0
      fin_cases hr <;> simp [IsDatetimeCell])).2 0 (by rfl)).2.1

-- ### Empty-result canonical schema (C6)

/-- C6: whenever the accumulation loop finishes with no frame collected,
`materialize` succeeds and returns an empty table carrying exactly the
eleven canonical columns, in the defined order. -/
theorem materialize_empty_canonical (env : Env) (http : String → HttpResponse)
    (clock : Nat → Int) (h : (collect env http clock).2 = Except.ok []) :
    (materialize env http clock).2 =
      Except.ok ⟨["taxi_type", "pickup_datetime", "dropoff_datetime",
        "pickup_location_id", "dropoff_location_id", "passenger_count",
        "trip_distance", "fare_amount", "total_amount", "payment_type",
        "extracted_at"], []⟩ := by
  simp only [materialize]
  rcases hc : collect env http clock with ⟨logs, exc⟩
  rw [hc] at h
  simp only at h
  subst h
  rfl

theorem materialize_empty_canonical_witness :
    (materialize envA http404 clockZero).2 =
      Except.ok ⟨["taxi_type", "pickup_datetime", "dropoff_datetime",
        "pickup_location_id", "dropoff_location_id", "passenger_count",
        "trip_distance", "fare_amount", "total_amount", "payment_type",
        "extracted_at"], []⟩ :=
  materialize_empty_canonical envA http404 clockZero (by
    have hms := month_starts_2023_eval
    simp only [collect, envA, Option.getD_some, unitsOf, hms]
    decide)

-- ### Lemmas about firstIdx and lookup

lemma firstIdx_some_spec (c : String) :
    ∀ (cols : List String) (i : Nat), firstIdx cols c = some i →
      i < cols.length ∧ cols.getD i "" = c := by
  intro cols
  induction cols with
  | nil => intro i h; simp [firstIdx] at h
  | cons x xs ih =>
    intro i h
    by_cases hx : x = c
    · simp only [firstIdx, if_pos hx] at h
      obtain rfl : (0 : Nat) = i := Option.some.inj h
      exact ⟨by simp, by simpa using hx⟩
    · simp only [firstIdx, if_neg hx] at h
      rcases hmap : firstIdx xs c with _ | j
      · rw [hmap] at h; simp at h
      · rw [hmap] at h
        simp only [Option.map_some', Option.some.injEq] at h
        obtain ⟨hj1, hj2⟩ := ih j hmap
        subst h
        refine ⟨by simpa using Nat.succ_lt_succ hj1, ?_⟩
        simpa [List.getD_cons_succ] using hj2

lemma firstIdx_none_iff (c : String) :
    ∀ cols : List String, firstIdx cols c = none ↔ c ∉ cols := by
  intro cols
  induction cols with
  | nil => simp [firstIdx]
  | cons x xs ih =>
    by_cases hx : x = c
    · subst hx
      simp [firstIdx]
    · rcases hmap : firstIdx xs c with _ | j
      · simp [firstIdx, hx, hmap, ih.mp hmap, Ne.symm hx]
      · have : c ∈ xs := by
          by_contra hcm
          rw [← ih] at hcm
          rw [hcm] at hmap
          cases hmap
        simp [firstIdx, hx, hmap, this]

lemma firstIdx_mem (c : String) (cols : List String) (h : c ∈ cols) :
    ∃ i, firstIdx cols c = some i := by
  rcases hfi : firstIdx cols c with _ | i
  · exact absurd h ((firstIdx_none_iff c cols).mp hfi)
  · exact ⟨i, rfl⟩

lemma lookup_ite_singleton (b : Prop) [Decidable b] (k v c : String)
    (l : List (String × String)) :
    ((if b then [(k, v)] else []) ++ l).lookup c =
      if c = k ∧ b then some v else l.lookup c := by
  split
  · next hb =>
    by_cases hck : c = k
    · subst hck
      simp [List.lookup, hb]
    · have hbeq : (c == k) = false := beq_eq_false_iff_ne.mpr hck
      simp [List.lookup, hbeq, hb, hck]
  · next hb =>
    simp [hb]

lemma lookup_ite_singleton_nil (b : Prop) [Decidable b] (k v c : String) :
    (if b then [(k, v)] else []).lookup c = if c = k ∧ b then some v else none := by
  simpa using lookup_ite_singleton b k v c []

-- ### Lemmas about the Schema Normalizer

lemma applyRename_mem (cols : List String) (c : String) (hc : c ∈ cols) :
    applyRename (renameMapOf cols) c = simpleRename c := by
  unfold applyRename renameMapOf
  simp only [List.append_assoc]
  rw [lookup_ite_singleton, lookup_ite_singleton, lookup_ite_singleton,
    lookup_ite_singleton, lookup_ite_singleton, lookup_ite_singleton_nil]
  unfold simpleRename
  by_cases h1 : c = "tpep_pickup_datetime"
  · subst h1; simp [hc]
  by_cases h2 : c = "lpep_pickup_datetime"
  · subst h2; simp [h1, hc]
  by_cases h3 : c = "tpep_dropoff_datetime"
  · subst h3; simp [h1, h2, hc]
  by_cases h4 : c = "lpep_dropoff_datetime"
  · subst h4; simp [h1, h2, h3, hc]
  by_cases h5 : c = "pulocationid"
  · subst h5; simp [h1, h2, h3, h4, hc]
  by_cases h6 : c = "dolocationid"
  · subst h6; simp [h1, h2, h3, h4, h5, hc]
  simp [h1, h2, h3, h4, h5, h6]

lemma simpleRename_ne_raw (c : String) :
    simpleRename c ≠ "tpep_pickup_datetime" ∧ simpleRename c ≠ "lpep_pickup_datetime" ∧
    simpleRename c ≠ "pulocationid" ∧ simpleRename c ≠ "dolocationid" ∧
    simpleRename c ≠ "tpep_dropoff_datetime" ∧ simpleRename c ≠ "lpep_dropoff_datetime" := by
  unfold simpleRename
  split_ifs <;>
    refine ⟨?_, ?_, ?_, ?_, ?_, ?_⟩ <;>
    first | decide | assumption

lemma simpleRename_eq_payment (c : String) (h : simpleRename c = "payment_type") :
    c = "payment_type" := by
  unfold simpleRename at h
  split_ifs at h <;> first | exact absurd h (by decide) | exact h

lemma simpleRename_untouched (c : String) (h : untouchedName c) : simpleRename c = c := by
  simp only [untouchedName, List.mem_cons, List.not_mem_nil, or_false] at h
  push_neg at h
  obtain ⟨n1, n2, n3, n4, n5, n6, _, _, _⟩ := h
  unfold simpleRename
  rw [if_neg n1, if_neg n2, if_neg n3, if_neg n4, if_neg n5, if_neg n6]

lemma coerceDatetime_ok_cols (df : DataFrame) (c : String) (out : DataFrame)
    (h : coerceDatetime df c = Except.ok out) : out.cols = df.cols := by
  unfold coerceDatetime at h
  split at h
  · injection h with h
    rw [← h]
  · split at h
    · injection h with h
      rw [← h]
    · exact Except.noConfusion h

lemma coerceDatetime_ok_count (df : DataFrame) (c : String) (out : DataFrame) (i : Nat)
    (hfi : firstIdx df.cols c = some i) (h : coerceDatetime df c = Except.ok out) :
    df.cols.count c = 1 := by
  unfold coerceDatetime at h
  split at h
  · next heq =>
    rw [hfi] at heq
    cases heq
  · split at h
    · assumption
    · exact Except.noConfusion h

lemma setColConst_cols (df : DataFrame) (c : String) (v : Value) :
    (setColConst df c v).cols =
      if df.cols.contains c then df.cols else df.cols ++ [c] := by
  unfold setColConst
  split
  · next hc => simp [hc]
  · next hc => simp [hc]

lemma standardize_inversion (df : DataFrame) (ty : String) (out : DataFrame)
    (hne : df.isEmpty = false) (hok : standardize_schema df ty = Except.ok out) :
    ∃ df3 df4 : DataFrame,
      coerceDatetime
        ⟨(lowerMap df.cols).map (applyRename (renameMapOf (lowerMap df.cols))), df.rows⟩
        "pickup_datetime" = Except.ok df3
      ∧ coerceDatetime df3 "dropoff_datetime" = Except.ok df4
      ∧ out = setColConst df4 "taxi_type" (Value.str ty) := by
  unfold standardize_schema at hok
  rw [if_neg (by simp [hne])] at hok
  simp only [] at hok
  rcases h3 : coerceDatetime
      ⟨(lowerMap df.cols).map (applyRename (renameMapOf (lowerMap df.cols))), df.rows⟩
      "pickup_datetime" with e3 | df3
  · rw [h3] at hok
    cases hok
  · rw [h3] at hok
    simp only at hok
    rcases h4 : coerceDatetime df3 "dropoff_datetime" with e4 | df4
    · rw [h4] at hok
      cases hok
    · rw [h4] at hok
      simp only at hok
      injection hok with hout
      exact ⟨df3, df4, rfl, h4, hout.symm⟩

/-- C4: for a non-empty raw table carrying a recognized pickup-timestamp
source name (after the case-normalizing lower-case pass), any table the
Schema Normalizer returns has exactly one `pickup_datetime` column and
neither raw pickup name; likewise a `PULocationID` column (any letter
case) comes out as `pickup_location_id` with the raw name absent.
(On pathological tables where the renames would collide into duplicate
`pickup_datetime` labels, the source raises inside `pd.to_datetime`
rather than returning, so every returned table satisfies this.) -/
theorem standardize_pickup_single (df : DataFrame) (ty : String) (out : DataFrame)
    (hne : df.isEmpty = false)
    (hok : standardize_schema df ty = Except.ok out) :
    (((lowerMap df.cols).contains "tpep_pickup_datetime" = true ∨
        (lowerMap df.cols).contains "lpep_pickup_datetime" = true) →
      out.cols.count "pickup_datetime" = 1
      ∧ "tpep_pickup_datetime" ∉ out.cols
      ∧ "lpep_pickup_datetime" ∉ out.cols)
    ∧ ((lowerMap df.cols).contains "pulocationid" = true →
      "pickup_location_id" ∈ out.cols ∧ "pulocationid" ∉ out.cols) := by
  obtain ⟨df3, df4, h3, h4, hout⟩ := standardize_inversion df ty out hne hok
  have hc3 : df3.cols = (lowerMap df.cols).map (applyRename (renameMapOf (lowerMap df.cols))) :=
    coerceDatetime_ok_cols _ _ _ h3
  have hc4 : df4.cols = (lowerMap df.cols).map (applyRename (renameMapOf (lowerMap df.cols))) := by
    rw [coerceDatetime_ok_cols _ _ _ h4, hc3]
  have houtcols : out.cols = (lowerMap df.cols).map (applyRename (renameMapOf (lowerMap df.cols)))
      ∨ out.cols = (lowerMap df.cols).map (applyRename (renameMapOf (lowerMap df.cols))) ++ ["taxi_type"] := by
    rw [hout, setColConst_cols, hc4]
    split
    · exact Or.inl rfl
    · exact Or.inr rfl
  have hraw : ∀ x ∈ (lowerMap df.cols).map (applyRename (renameMapOf (lowerMap df.cols))),
      x ≠ "tpep_pickup_datetime" ∧ x ≠ "lpep_pickup_datetime" ∧ x ≠ "pulocationid" := by
    intro x hx
    obtain ⟨c, hcmem, hcx⟩ := List.mem_map.mp hx
    rw [← hcx, applyRename_mem (lowerMap df.cols) c hcmem]
    have h6 := simpleRename_ne_raw c
    exact ⟨h6.1, h6.2.1, h6.2.2.1⟩
  have hrawout : "tpep_pickup_datetime" ∉ out.cols ∧ "lpep_pickup_datetime" ∉ out.cols ∧
      "pulocationid" ∉ out.cols := by
    rcases houtcols with hoc | hoc <;> rw [hoc]
    · exact ⟨fun hm => (hraw _ hm).1 rfl, fun hm => (hraw _ hm).2.1 rfl,
        fun hm => (hraw _ hm).2.2 rfl⟩
    · refine ⟨fun hm => ?_, fun hm => ?_, fun hm => ?_⟩ <;>
        rcases List.mem_append.mp hm with hm2 | hm2
      · exact (hraw _ hm2).1 rfl
      · simp at hm2
      · exact (hraw _ hm2).2.1 rfl
      · simp at hm2
      · exact (hraw _ hm2).2.2 rfl
      · simp at hm2
  constructor
  · intro hp
    have hpm : "pickup_datetime" ∈
        (lowerMap df.cols).map (applyRename (renameMapOf (lowerMap df.cols))) := by
      rcases hp with hp | hp
      · have hm : "tpep_pickup_datetime" ∈ lowerMap df.cols := List.mem_of_elem_eq_true hp
        refine List.mem_map.mpr ⟨_, hm, ?_⟩
        rw [applyRename_mem (lowerMap df.cols) _ hm]
        decide
      · have hm : "lpep_pickup_datetime" ∈ lowerMap df.cols := List.mem_of_elem_eq_true hp
        refine List.mem_map.mpr ⟨_, hm, ?_⟩
        rw [applyRename_mem (lowerMap df.cols) _ hm]
        decide
    obtain ⟨i, hfi⟩ := firstIdx_mem _ _ hpm
    have hcount : ((lowerMap df.cols).map (applyRename (renameMapOf (lowerMap df.cols)))).count
        "pickup_datetime" = 1 :=
      coerceDatetime_ok_count
        ⟨(lowerMap df.cols).map (applyRename (renameMapOf (lowerMap df.cols))), df.rows⟩
        _ df3 i hfi h3
    refine ⟨?_, hrawout.1, hrawout.2.1⟩
    rcases houtcols with hoc | hoc <;> rw [hoc]
    · exact hcount
    · rw [List.count_append, hcount]
      decide
  · intro hp
    have hm : "pulocationid" ∈ lowerMap df.cols := List.mem_of_elem_eq_true hp
    have hpm : "pickup_location_id" ∈
        (lowerMap df.cols).map (applyRename (renameMapOf (lowerMap df.cols))) := by
      refine List.mem_map.mpr ⟨_, hm, ?_⟩
      rw [applyRename_mem (lowerMap df.cols) _ hm]
      decide
    refine ⟨?_, hrawout.2.2⟩
    rcases houtcols with hoc | hoc <;> rw [hoc]
    · exact hpm
    · exact List.mem_append_left _ hpm

theorem standardize_pickup_single_witness :
    outW4.cols.count "pickup_datetime" = 1
    ∧ "tpep_pickup_datetime" ∉ outW4.cols
    ∧ "pickup_location_id" ∈ outW4.cols
    ∧ "pulocationid" ∉ outW4.cols := by
  have h := standardize_pickup_single dfW4 "yellow" outW4 (by decide) (by decide)
  have h1 := h.1 (Or.inl (by decide))
  have h2 := h.2 (by decide)
  exact ⟨h1.1, h1.2.1, h2.1, h2.2⟩

-- ### Cell-level lemmas for the frame property

lemma getD_mem_of_lt {α : Type} (l : List α) (i : Nat) (d : α) (h : i < l.length) :
    l.getD i d ∈ l := by
  rw [List.getD_eq_getElem l d h]
  exact List.getElem_mem h

lemma getD_map_lt {α β : Type} (f : α → β) :
    ∀ (l : List α) (i : Nat), i < l.length → ∀ (d : β) (d2 : α),
      (l.map f).getD i d = f (l.getD i d2) := by
  intro l
  induction l with
  | nil =>
    intro i h
    exact absurd h (by simp)
  | cons x xs ih =>
    intro i h d d2
    cases i with
    | zero => simp
    | succ j =>
      simp only [List.map_cons, List.getD_cons_succ]
      exact ih j (by simpa using h) d d2

lemma getD_map_ge {α β : Type} (f : α → β) (l : List α) (j : Nat) (d : β)
    (hj : l.length ≤ j) : (l.map f).getD j d = d := by
  apply List.getD_eq_default
  simpa using hj

lemma getD_set_ne (v : Value) :
    ∀ (l : List Value) (i j : Nat), i ≠ j →
      (l.set i v).getD j Value.null = l.getD j Value.null := by
  intro l
  induction l with
  | nil => intro i j h; simp
  | cons x xs ih =>
    intro i j h
    cases i with
    | zero =>
      cases j with
      | zero => exact absurd rfl h
      | succ j2 => simp
    | succ i2 =>
      cases j with
      | zero => simp
      | succ j2 =>
        simp only [List.set_cons_succ, List.getD_cons_succ]
        exact ih i2 j2 (by omega)

lemma getD_setNamed_ne (c : String) (v : Value) :
    ∀ (cols : List String) (r : Row) (i : Nat), cols.getD i "" ≠ c →
      (setNamed cols c v r).getD i Value.null = r.getD i Value.null := by
  intro cols
  induction cols with
  | nil =>
    intro r i h
    cases r <;> rfl
  | cons cn cs ih =>
    intro r i h
    cases r with
    | nil => rfl
    | cons x xs =>
      cases i with
      | zero =>
        have hcn : cn ≠ c := by simpa using h
        simp [setNamed, if_neg hcn]
      | succ i2 =>
        simp only [setNamed, List.getD_cons_succ]
        exact ih xs i2 (by simpa using h)

lemma coerceDatetime_ok_len (df : DataFrame) (c : String) (out : DataFrame)
    (h : coerceDatetime df c = Except.ok out) : out.rows.length = df.rows.length := by
  unfold coerceDatetime at h
  split at h
  · injection h with h
    rw [← h]
  · split at h
    · injection h with h
      rw [← h]
      simp
    · exact Except.noConfusion h

lemma coerceDatetime_ok_aligned (df : DataFrame) (c : String) (out : DataFrame)
    (h : coerceDatetime df c = Except.ok out) (ha : df.Aligned) : out.Aligned := by
  unfold coerceDatetime at h
  split at h
  · injection h with h
    rw [← h]
    exact ha
  · split at h
    · injection h with h
      rw [← h]
      intro r hr
      obtain ⟨r0, hr0, rfl⟩ := List.mem_map.mp hr
      simpa [List.length_set] using ha r0 hr0
    · exact Except.noConfusion h

lemma coerceDatetime_ok_cell (df : DataFrame) (c : String) (out : DataFrame)
    (h : coerceDatetime df c = Except.ok out) (i : Nat)
    (hi : df.cols.getD i "" ≠ c) :
    ∀ j, (out.rows.getD j []).getD i Value.null =
      (df.rows.getD j []).getD i Value.null := by
  unfold coerceDatetime at h
  split at h
  · injection h with h
    rw [← h]
    intro j
    rfl
  · next i0 heq =>
    split at h
    · injection h with h
      rw [← h]
      intro j
      by_cases hj : j < df.rows.length
      · rw [show (DataFrame.mk df.cols
            (df.rows.map (fun r => r.set i0 (toDatetimeVal (r.getD i0 Value.null))))).rows
            = df.rows.map (fun r => r.set i0 (toDatetimeVal (r.getD i0 Value.null))) from rfl]
        rw [getD_map_lt _ df.rows j hj [] []]
        have hspec := firstIdx_some_spec c df.cols i0 heq
        have hne : i0 ≠ i := by
          intro hcontr
          exact hi (by rw [← hcontr]; exact hspec.2)
        exact getD_set_ne _ _ i0 i hne
      · have hj2 : df.rows.length ≤ j := Nat.le_of_not_lt hj
        rw [getD_map_ge _ _ _ _ hj2, List.getD_eq_default _ _ hj2]
    · exact Except.noConfusion h

lemma setColConst_len (df : DataFrame) (c : String) (v : Value) :
    (setColConst df c v).rows.length = df.rows.length := by
  unfold setColConst
  split <;> simp

lemma setColConst_cell (df : DataFrame) (c : String) (v : Value) (i : Nat)
    (hi : df.cols.getD i "" ≠ c) (hlen : i < df.cols.length) (halign : df.Aligned) :
    (setColConst df c v).cols.getD i "" = df.cols.getD i ""
    ∧ ∀ j, ((setColConst df c v).rows.getD j []).getD i Value.null =
        (df.rows.getD j []).getD i Value.null := by
  unfold setColConst
  split
  · refine ⟨rfl, ?_⟩
    intro j
    by_cases hj : j < df.rows.length
    · rw [show (DataFrame.mk df.cols (df.rows.map (setNamed df.cols c v))).rows
          = df.rows.map (setNamed df.cols c v) from rfl]
      rw [getD_map_lt _ df.rows j hj [] []]
      exact getD_setNamed_ne c v df.cols _ i hi
    · have hj2 : df.rows.length ≤ j := Nat.le_of_not_lt hj
      rw [getD_map_ge _ _ _ _ hj2, List.getD_eq_default _ _ hj2]
  · refine ⟨List.getD_append _ _ _ _ hlen, ?_⟩
    intro j
    by_cases hj : j < df.rows.length
    · rw [show (DataFrame.mk (df.cols ++ [c]) (df.rows.map (fun r => r ++ [v]))).rows
          = df.rows.map (fun r => r ++ [v]) from rfl]
      rw [getD_map_lt _ df.rows j hj [] []]
      have hrlen : (df.rows.getD j []).length = df.cols.length :=
        halign _ (getD_mem_of_lt _ _ _ hj)
      exact List.getD_append _ _ _ _ (by omega)
    · have hj2 : df.rows.length ≤ j := Nat.le_of_not_lt hj
      rw [getD_map_ge _ _ _ _ hj2, List.getD_eq_default _ _ hj2]

-- ### The Schema Normalizer frame property (C9)

/-- C9 counterexample: a source column already named `pickup_datetime`
is not renamed (it is under none of the six recognized source names), yet
the Normalizer changes its content: an unparseable value is coerced to
null.  So content is not preserved for all non-renamed, non-taxi_type
columns, refuting the claim as stated. -/
theorem standardize_coerces_existing_pickup :
    standardize_schema ⟨["pickup_datetime"], [[Value.str "garbage"]]⟩ "yellow"
      = Except.ok ⟨["pickup_datetime", "taxi_type"],
          [[Value.null, Value.str "yellow"]]⟩
    ∧ Value.null ≠ Value.str "garbage"
    ∧ "pickup_datetime" ∉ ["tpep_pickup_datetime", "lpep_pickup_datetime",
        "tpep_dropoff_datetime", "lpep_dropoff_datetime", "pulocationid",
        "dolocationid"] :=
  ⟨by decide, by decide, by decide⟩

/-- C9 amended: the Normalizer invents no column — in particular, if no
source column lower-cases to `payment_type`, the output has no
`payment_type` column — and content is unchanged for every column
position whose (lower-cased) name is untouched: not one of the six
renamed source names, not `pickup_datetime` or `dropoff_datetime`
(which are type-coerced even when they already carry the canonical
name), and not `taxi_type` (which is overwritten). -/
theorem standardize_frame_amended (df : DataFrame) (ty : String) (out : DataFrame)
    (halign : df.Aligned) (hne : df.isEmpty = false)
    (hok : standardize_schema df ty = Except.ok out) :
    ("payment_type" ∉ lowerMap df.cols → "payment_type" ∉ out.cols)
    ∧ out.rows.length = df.rows.length
    ∧ ∀ i, i < df.cols.length → untouchedName ((lowerMap df.cols).getD i "") →
        out.cols.getD i "" = (lowerMap df.cols).getD i ""
        ∧ ∀ j, (out.rows.getD j []).getD i Value.null =
            (df.rows.getD j []).getD i Value.null := by
  obtain ⟨df3, df4, h3, h4, hout⟩ := standardize_inversion df ty out hne hok
  have hc3 : df3.cols = (lowerMap df.cols).map (applyRename (renameMapOf (lowerMap df.cols))) :=
    coerceDatetime_ok_cols _ _ _ h3
  have hc4 : df4.cols = (lowerMap df.cols).map (applyRename (renameMapOf (lowerMap df.cols))) := by
    rw [coerceDatetime_ok_cols _ _ _ h4, hc3]
  have hlclen : (lowerMap df.cols).length = df.cols.length := by
    simp [lowerMap]
  have hcols2len :
      ((lowerMap df.cols).map (applyRename (renameMapOf (lowerMap df.cols)))).length
        = df.cols.length := by
    simp [hlclen]
  refine ⟨?_, ?_, ?_⟩
  · -- no payment_type fabricated
    intro hnp hmem
    have houtcols : out.cols = (lowerMap df.cols).map (applyRename (renameMapOf (lowerMap df.cols)))
        ∨ out.cols = (lowerMap df.cols).map (applyRename (renameMapOf (lowerMap df.cols))) ++ ["taxi_type"] := by
      rw [hout, setColConst_cols, hc4]
      split
      · exact Or.inl rfl
      · exact Or.inr rfl
    have hmem2 : "payment_type" ∈
        (lowerMap df.cols).map (applyRename (renameMapOf (lowerMap df.cols))) := by
      rcases houtcols with hoc | hoc
      · rw [hoc] at hmem
        exact hmem
      · rw [hoc] at hmem
        rcases List.mem_append.mp hmem with hm | hm
        · exact hm
        · simp at hm
    obtain ⟨c, hcmem, hcx⟩ := List.mem_map.mp hmem2
    rw [applyRename_mem _ _ hcmem] at hcx
    rw [simpleRename_eq_payment c hcx] at hcmem
    exact hnp hcmem
  · -- row count preserved
    rw [hout, setColConst_len, coerceDatetime_ok_len _ _ _ h4,
      coerceDatetime_ok_len _ _ _ h3]
  · -- untouched positions preserved
    intro i hilen hu
    have hu9 : (lowerMap df.cols).getD i "" ≠ "tpep_pickup_datetime"
        ∧ (lowerMap df.cols).getD i "" ≠ "lpep_pickup_datetime"
        ∧ (lowerMap df.cols).getD i "" ≠ "tpep_dropoff_datetime"
        ∧ (lowerMap df.cols).getD i "" ≠ "lpep_dropoff_datetime"
        ∧ (lowerMap df.cols).getD i "" ≠ "pulocationid"
        ∧ (lowerMap df.cols).getD i "" ≠ "dolocationid"
        ∧ (lowerMap df.cols).getD i "" ≠ "pickup_datetime"
        ∧ (lowerMap df.cols).getD i "" ≠ "dropoff_datetime"
        ∧ (lowerMap df.cols).getD i "" ≠ "taxi_type" := by
      simp only [untouchedName, List.mem_cons, List.not_mem_nil, or_false] at hu
      push_neg at hu
      exact hu
    have hilc : i < (lowerMap df.cols).length := by omega
    -- the renamed column name at position i is the untouched name itself
    have hcols2i :
        ((lowerMap df.cols).map (applyRename (renameMapOf (lowerMap df.cols)))).getD i ""
          = (lowerMap df.cols).getD i "" := by
      rw [getD_map_lt _ _ i hilc "" ""]
      rw [applyRename_mem _ _ (getD_mem_of_lt _ _ _ hilc)]
      exact simpleRename_untouched _ hu
    -- alignment of the intermediate frames
    have halign2 : (DataFrame.mk
        ((lowerMap df.cols).map (applyRename (renameMapOf (lowerMap df.cols)))) df.rows).Aligned := by
      intro r hr
      rw [show (DataFrame.mk
          ((lowerMap df.cols).map (applyRename (renameMapOf (lowerMap df.cols)))) df.rows).cols
          = (lowerMap df.cols).map (applyRename (renameMapOf (lowerMap df.cols))) from rfl]
      rw [hcols2len]
      exact halign r hr
    have halign3 : df3.Aligned := coerceDatetime_ok_aligned _ _ _ h3 halign2
    have halign4 : df4.Aligned := coerceDatetime_ok_aligned _ _ _ h4 halign3
    -- cell preservation through the two coercions
    have hcell3 : ∀ j, (df3.rows.getD j []).getD i Value.null =
        (df.rows.getD j []).getD i Value.null :=
      coerceDatetime_ok_cell _ _ _ h3 i (by
        show ((lowerMap df.cols).map
          (applyRename (renameMapOf (lowerMap df.cols)))).getD i "" ≠ "pickup_datetime"
        rw [hcols2i]
        exact hu9.2.2.2.2.2.2.1)
    have hcell4 : ∀ j, (df4.rows.getD j []).getD i Value.null =
        (df3.rows.getD j []).getD i Value.null :=
      coerceDatetime_ok_cell _ _ _ h4 i (by rw [hc3, hcols2i]; exact hu9.2.2.2.2.2.2.2.1)
    -- cell and name preservation through the taxi_type stamp
    have hstamp := setColConst_cell df4 "taxi_type" (Value.str ty) i
      (by rw [hc4, hcols2i]; exact hu9.2.2.2.2.2.2.2.2)
      (by rw [hc4]; omega) halign4
    constructor
    · rw [hout, hstamp.1, hc4, hcols2i]
    · intro j
      rw [hout, hstamp.2 j, hcell4 j, hcell3 j]

theorem standardize_frame_amended_witness :
    "payment_type" ∉ outW9.cols
    ∧ outW9.rows.length = dfW9.rows.length
    ∧ outW9.cols.getD 0 "" = (lowerMap dfW9.cols).getD 0 ""
    ∧ (outW9.rows.getD 0 []).getD 0 Value.null =
        (dfW9.rows.getD 0 []).getD 0 Value.null := by
  have h := standardize_frame_amended dfW9 "yellow" outW9
    (by intro r hr; fin_cases hr <;> rfl) (by decide) (by decide)
  have h0 := h.2.2 0 (by decide) (by unfold untouchedName; decide)
  exact ⟨h.1 (by decide), h.2.1, h0.1, h0.2 0⟩

-- ### Stamping of extracted_at (C7)

lemma length_setNamed (c : String) (v : Value) :
    ∀ (r : Row) (cols : List String), (setNamed cols c v r).length = r.length := by
  intro r
  induction r with
  | nil => intro cols; cases cols <;> rfl
  | cons x xs ih =>
    intro cols
    cases cols with
    | nil => rfl
    | cons cn cs => simp [setNamed, ih cs]

lemma getD_setNamed_eq (c : String) (v : Value) :
    ∀ (cols : List String) (r : Row) (i : Nat), i < r.length → i < cols.length →
      cols.getD i "" = c → (setNamed cols c v r).getD i Value.null = v := by
  intro cols
  induction cols with
  | nil =>
    intro r i _ h2
    exact absurd h2 (by simp)
  | cons cn cs ih =>
    intro r i h1 h2 h3
    cases r with
    | nil => exact absurd h1 (by simp)
    | cons x xs =>
      cases i with
      | zero =>
        have : cn = c := by simpa using h3
        simp [setNamed, this]
      | succ i2 =>
        simp only [setNamed, List.getD_cons_succ]
        exact ih xs i2 (by simpa using h1) (by simpa using h2) (by simpa using h3)

lemma setColConst_aligned (df : DataFrame) (c : String) (v : Value)
    (ha : df.Aligned) : (setColConst df c v).Aligned := by
  unfold setColConst
  split
  · intro r hr
    obtain ⟨r0, hr0, rfl⟩ := List.mem_map.mp hr
    rw [length_setNamed]
    exact ha r0 hr0
  · intro r hr
    obtain ⟨r0, hr0, rfl⟩ := List.mem_map.mp hr
    simp [ha r0 hr0]

lemma setColConst_stamped (df : DataFrame) (t : Int) (ha : df.Aligned) :
    Stamped t (setColConst df "extracted_at" (Value.ts t)) := by
  unfold Stamped
  refine ⟨setColConst_aligned df _ _ ha, ?_, ?_⟩
  · unfold setColConst
    split
    · next hc => exact hc
    · exact List.elem_eq_true_of_mem (by simp)
  · unfold setColConst
    split
    · next hc =>
      intro r hr i hilen hname
      obtain ⟨r0, hr0, rfl⟩ := List.mem_map.mp hr
      exact getD_setNamed_eq _ _ df.cols r0 i (by rw [ha r0 hr0]; exact hilen) hilen hname
    · next hc =>
      intro r hr i hilen hname
      obtain ⟨r0, hr0, rfl⟩ := List.mem_map.mp hr
      have hrlen : r0.length = df.cols.length := ha r0 hr0
      by_cases hi : i < df.cols.length
      · exfalso
        rw [List.getD_append _ _ _ _ hi] at hname
        exact hc (List.elem_eq_true_of_mem (by rw [← hname]; exact getD_mem_of_lt _ _ _ hi))
      · have hieq : i = df.cols.length := by
          have : i < df.cols.length + 1 := by simpa using hilen
          omega
        subst hieq
        rw [← hrlen]
        simp [List.getD_append_right]

lemma window_filter_aligned (df : DataFrame) (startD endD : Date)
    (ha : df.Aligned) : (window_filter df startD endD).Aligned := by
  unfold window_filter
  split
  · exact ha
  · intro r hr
    rw [show (DataFrame.mk df.cols (locRows df.rows (df.rows.map _))).rows
        = locRows df.rows (df.rows.map _) from rfl] at hr
    rw [locRows_map] at hr
    exact ha r (List.mem_filter.mp hr).1

lemma standardize_ok_aligned (df : DataFrame) (ty : String) (out : DataFrame)
    (h : standardize_schema df ty = Except.ok out) (ha : df.Aligned) : out.Aligned := by
  by_cases hne : df.isEmpty
  · unfold standardize_schema at h
    rw [if_pos hne] at h
    injection h with h
    rw [← h]
    exact ha
  · obtain ⟨df3, df4, h3, h4, hout⟩ :=
      standardize_inversion df ty out (Bool.not_eq_true _ ▸ hne) h
    have halign2 : (DataFrame.mk
        ((lowerMap df.cols).map (applyRename (renameMapOf (lowerMap df.cols))))
        df.rows).Aligned := by
      intro r hr
      have : r.length = df.cols.length := ha r hr
      simpa [lowerMap] using this
    have halign4 : df4.Aligned :=
      coerceDatetime_ok_aligned _ _ _ h4 (coerceDatetime_ok_aligned _ _ _ h3 halign2)
    rw [hout]
    exact setColConst_aligned _ _ _ halign4

lemma load_aligned (url : String) (resp : HttpResponse)
    (h : resp.content.Aligned) : (load_parquet_from_url url resp).2.Aligned := by
  unfold load_parquet_from_url
  split
  · intro r hr
    simp [DataFrame.empty] at hr
  · exact h

lemma processMonth_stamped (http : String → HttpResponse) (startD endD : Date)
    (t : Int) (ty : String) (m : Date) (df : DataFrame) (logs : List String)
    (hal : ∀ url, (http url).content.Aligned)
    (h : processMonth http startD endD t ty m = (logs, Except.ok (some df))) :
    Stamped t df := by
  simp only [processMonth] at h
  split at h
  · exact absurd (congrArg Prod.snd h) (by simp)
  · split at h
    · exact absurd (congrArg Prod.snd h) (by simp)
    · next df1 heq =>
      split at h
      · exact absurd (congrArg Prod.snd h) (by simp)
      · have h2 := congrArg Prod.snd h
        have hdf : setColConst (window_filter df1 startD endD) "extracted_at"
            (Value.ts t) = df := by
          simpa using h2
        rw [← hdf]
        exact setColConst_stamped _ _
          (window_filter_aligned _ _ _
            (standardize_ok_aligned _ _ _ heq (load_aligned _ _ (hal _))))

lemma runUnits_stamped (http : String → HttpResponse) (startD endD : Date)
    (c : Int) (hal : ∀ url, (http url).content.Aligned) :
    ∀ (units : List (String × Date)) (logs : List String) (frames : List DataFrame),
      (∀ df ∈ frames, Stamped c df) →
      ∀ (logs2 : List String) (frames2 : List DataFrame),
        runUnits http startD endD (fun _ => c) units logs frames =
          (logs2, Except.ok frames2) →
        ∀ df ∈ frames2, Stamped c df := by
  intro units
  induction units with
  | nil =>
    intro logs frames hinv logs2 frames2 hrun df hdf
    simp only [runUnits, Prod.mk.injEq] at hrun
    have : frames = frames2 := by simpa using hrun.2
    rw [← this] at hdf
    exact hinv df hdf
  | cons u rest ih =>
    intro logs frames hinv logs2 frames2 hrun df hdf
    obtain ⟨ty, m⟩ := u
    rw [runUnits] at hrun
    rcases hp : processMonth http startD endD c ty m with ⟨l2, exc⟩
    rw [hp] at hrun
    match exc, hrun with
    | Except.error e, hrun =>
      exact absurd (congrArg Prod.snd hrun) (by simp)
    | Except.ok none, hrun =>
      exact ih (logs ++ l2) frames hinv logs2 frames2 hrun df hdf
    | Except.ok (some dfN), hrun =>
      refine ih (logs ++ l2) (frames ++ [dfN]) ?_ logs2 frames2 hrun df hdf
      intro df2 hdf2
      rcases List.mem_append.mp hdf2 with hm | hm
      · exact hinv df2 hm
      · have : df2 = dfN := by simpa using hm
        rw [this]
        exact processMonth_stamped http startD endD c ty m dfN l2 hal hp

lemma concatCols_mem (x : String) :
    ∀ (frames : List DataFrame) (acc : List String),
      (x ∈ acc ∨ ∃ f ∈ frames, x ∈ f.cols) →
      x ∈ frames.foldl (fun acc d => acc ++ d.cols.filter (fun c => !(acc.contains c))) acc := by
  intro frames
  induction frames with
  | nil =>
    intro acc h
    rcases h with h | ⟨f, hf, _⟩
    · exact h
    · simp at hf
  | cons d ds ih =>
    intro acc h
    simp only [List.foldl_cons]
    apply ih
    rcases h with h | ⟨f, hf, hx⟩
    · exact Or.inl (List.mem_append_left _ h)
    · rcases List.mem_cons.mp hf with rfl | hf2
      · by_cases hacc : x ∈ acc
        · exact Or.inl (List.mem_append_left _ hacc)
        · refine Or.inl (List.mem_append_right _ ?_)
          rw [List.mem_filter]
          exact ⟨hx, by simp [hacc]⟩
      · exact Or.inr ⟨f, hf2, hx⟩

lemma concatDF_stamped (frames : List DataFrame) (c : Int)
    (hst : ∀ df ∈ frames, Stamped c df) :
    ∀ r ∈ (concatDF frames).rows,
      getCell (concatDF frames).cols r "extracted_at" = Value.ts c := by
  intro r hr
  unfold concatDF at hr ⊢
  rw [show (DataFrame.mk (concatCols frames)
      ((frames.map (fun d => d.rows.map (reindexRow d.cols (concatCols frames)))).flatten)).rows
      = (frames.map (fun d => d.rows.map (reindexRow d.cols (concatCols frames)))).flatten
      from rfl] at hr
  obtain ⟨l, hl, hrl⟩ := List.mem_flatten.mp hr
  obtain ⟨d, hd, rfl⟩ := List.mem_map.mp hl
  obtain ⟨r0, hr0, rfl⟩ := List.mem_map.mp hrl
  have hstd := hst d hd
  have hmemd : "extracted_at" ∈ d.cols := List.mem_of_elem_eq_true hstd.2.1
  have hmemall : "extracted_at" ∈ concatCols frames := by
    unfold concatCols
    exact concatCols_mem _ frames [] (Or.inr ⟨d, hd, hmemd⟩)
  obtain ⟨jidx, hj⟩ := firstIdx_mem _ _ hmemall
  have hspec := firstIdx_some_spec _ _ _ hj
  show getCell (concatCols frames) (reindexRow d.cols (concatCols frames) r0)
    "extracted_at" = Value.ts c
  obtain ⟨k, hk⟩ := firstIdx_mem _ _ hmemd
  have hkspec := firstIdx_some_spec _ _ _ hk
  unfold getCell
  rw [hj]
  show (reindexRow d.cols (concatCols frames) r0).getD jidx Value.null = Value.ts c
  unfold reindexRow
  rw [getD_map_lt _ _ jidx hspec.1 Value.null ""]
  rw [hspec.2]
  show (match firstIdx d.cols "extracted_at" with
    | some i => r0.getD i Value.null
    | none => Value.null) = Value.ts c
  rw [hk]
  exact hstd.2.2 r0 hr0 k hkspec.1 hkspec.2

/-- C7: the claim says `extracted_at` is stamped once, after all
subtype/month combinations are processed, so that one shared timestamp
appears on every row.  The code instead calls `pd.Timestamp.utcnow()`
inside the loop, at append time, once per accumulated frame; with a
clock that advances between appends the two accumulated months carry
two different `extracted_at` values in the output of one invocation, refuting
the shared-value claim. -/
theorem materialize_extracted_at_not_shared :
    (materialize envA httpA clockTick).2 =
      Except.ok ⟨["pickup_datetime", "taxi_type", "extracted_at"],
        [[Value.ts (tsOf ⟨2023, 1, 15⟩), Value.str "yellow", Value.ts 0],
         [Value.ts (tsOf ⟨2023, 1, 15⟩), Value.str "yellow", Value.ts 1]]⟩
    ∧ Value.ts (0 : Int) ≠ Value.ts (1 : Int) := by
  constructor
  · have hms := month_starts_2023_eval
    simp only [materialize, collect, envA, Option.getD_some, unitsOf, hms]
    decide
  · decide

/-- C7 amended: each accumulated frame is stamped at append time with
the clock reading current at that moment (the k-th appended frame gets
the k-th reading); consequently, whenever the clock does not advance
during the invocation — reading a constant value `c` — every row of the
returned table carries `extracted_at = c`.  Frames appended under an
advancing clock may carry different values (see the counterexample). -/
theorem materialize_extracted_at_const_clock (env : Env)
    (http : String → HttpResponse) (c : Int)
    (hal : ∀ url, (http url).content.Aligned) (df : DataFrame)
    (hok : (materialize env http (fun _ => c)).2 = Except.ok df) :
    ∀ r ∈ df.rows, getCell df.cols r "extracted_at" = Value.ts c := by
  unfold materialize at hok
  rcases hc : collect env http (fun _ => c) with ⟨logs, exc⟩
  rw [hc] at hok
  match exc, hok with
  | Except.error e, hok => exact absurd hok (by simp)
  | Except.ok frames, hok =>
    have hst : ∀ dfr ∈ frames, Stamped c dfr := by
      unfold collect at hc
      rcases env with ⟨os, oe, ot⟩
      match os, oe, hc with
      | none, _, hc =>
        exact absurd (congrArg Prod.snd hc) (by simp)
      | some s, none, hc =>
        exact absurd (congrArg Prod.snd hc) (by simp)
      | some s, some e, hc =>
        have hrun : runUnits http s e (fun _ => c)
            (unitsOf (ot.getD ["yellow"]) s e) [] [] = (logs, Except.ok frames) := hc
        exact runUnits_stamped http s e c hal _ [] []
          (by intro df2 h2; simp at h2) logs frames hrun
    have hok2 : (if frames.isEmpty = true
        then (logs, Except.ok (DataFrame.mk canonicalColumns []))
        else (logs, Except.ok (concatDF frames))).2 = Except.ok df := hok
    by_cases hfr : frames.isEmpty
    · rw [if_pos hfr] at hok2
      have hdf : DataFrame.mk canonicalColumns [] = df := by simpa using hok2
      intro r hr
      rw [← hdf] at hr
      simp at hr
    · rw [if_neg hfr] at hok2
      have hdf : concatDF frames = df := by simpa using hok2
      intro r hr
      rw [← hdf] at hr ⊢
      exact concatDF_stamped frames c hst r hr

theorem materialize_extracted_at_const_clock_witness :
    getCell dfW7.cols (dfW7.rows.getD 0 []) "extracted_at" = Value.ts 5 :=
  materialize_extracted_at_const_clock envA httpA 5
    (fun _ => by intro r hr; fin_cases hr <;> rfl) dfW7
    (by
      have hms := month_starts_2023_eval
      simp only [materialize, collect, envA, Option.getD_some, unitsOf, hms]
      decide)
    (dfW7.rows.getD 0 []) (by decide)

end TripsPipeline
